import Mathlib

/-!
Shallow embedding of the deterministic spatial-tracking core of the
open-science-dlt repository (src/embedded): the 16.16 fixed-point kernel
(se3_edge.h, se3_math.c), the T-BSP grid engine (t_bsp.h, t_bsp.c) and the
cell handoff protocol (handoff.c).  Machine integers are modelled as
Lean Int/Nat; `>>` on a signed value is floor division, C `/` on int64 is
truncation toward zero, and unsigned casts are taken modulo the word size
at the points where the C code performs them.
-/

/-! ## Fixed-point kernel (se3_edge.h) -/

/-- FRACUNIT, one in Q16.16 fixed point. -/
def FRACUNIT : Int := 65536

/-- FixedMul from se3_edge.h: 64-bit product arithmetically shifted right 16. -/
def FixedMul (a b : Int) : Int := Int.fdiv (a * b) 65536

/-- FixedDiv from se3_edge.h: saturate on zero divisor, else 64-bit
C division (truncation toward zero) of the numerator shifted left 16. -/
def FixedDiv (a b : Int) : Int :=
  if b = 0 then (if a < 0 then -2147483648 else 2147483647)
  else Int.tdiv (a * 65536) b

/-- INT_TO_FIXED conversion macro. -/
def INT_TO_FIXED (i : Int) : Int := i * 65536

/-- FIXED_TO_INT conversion macro: arithmetic shift right 16, i.e. floor. -/
def FIXED_TO_INT (f : Int) : Int := Int.fdiv f 65536

/-- FIXED_180_DEG = FLOAT_TO_FIXED(180.0f) = 180 * 65536. -/
def FIXED_180_DEG : Int := 11796480

/-- FIXED_360_DEG = FLOAT_TO_FIXED(360.0f) = 360 * 65536. -/
def FIXED_360_DEG : Int := 23592960

/-- FIXED_90_DEG = FLOAT_TO_FIXED(90.0f) = 90 * 65536. -/
def FIXED_90_DEG : Int := 5898240

/-! ## Geodetic utilities (se3_math.c) -/

/-- First while-loop of normalize_lon: subtract 360 degrees while above 180. -/
def lon_wrap_down (lon : Int) : Int :=
  if lon > FIXED_180_DEG then lon_wrap_down (lon - FIXED_360_DEG) else lon
termination_by lon.natAbs
decreasing_by
  simp only [FIXED_180_DEG, FIXED_360_DEG] at *
  omega

/-- Second while-loop of normalize_lon: add 360 degrees while below -180. -/
def lon_wrap_up (lon : Int) : Int :=
  if lon < -FIXED_180_DEG then lon_wrap_up (lon + FIXED_360_DEG) else lon
termination_by lon.natAbs
decreasing_by
  simp only [FIXED_180_DEG, FIXED_360_DEG] at *
  omega

/-- normalize_lon from se3_math.c: fold a fixed-point longitude into
the interval from -180 to 180 degrees by the two while-loops. -/
def normalize_lon (lon : Int) : Int := lon_wrap_up (lon_wrap_down lon)

/-- Longitudes already in the normalised band are untouched by the first loop. -/
theorem lon_wrap_down_id (x : Int) (h : x ≤ FIXED_180_DEG) :
    lon_wrap_down x = x := by
  rw [lon_wrap_down]
  simp only [FIXED_180_DEG] at *
  omega

/-- Longitudes already in the normalised band are untouched by the second loop. -/
theorem lon_wrap_up_id (x : Int) (h : -FIXED_180_DEG ≤ x) :
    lon_wrap_up x = x := by
  rw [lon_wrap_up]
  simp only [FIXED_180_DEG] at *
  omega

/-- normalize_lon is the identity on the band from -180 to 180 degrees. -/
theorem normalize_lon_id (x : Int) (h1 : -FIXED_180_DEG ≤ x)
    (h2 : x ≤ FIXED_180_DEG) : normalize_lon x = x := by
  unfold normalize_lon
  rw [lon_wrap_down_id x h2, lon_wrap_up_id x h1]

/-- First while-loop of heading_to_angle: subtract 360 degrees while at
or above 360. -/
def deg_wrap_down (x : Int) : Int :=
  if x ≥ FIXED_360_DEG then deg_wrap_down (x - FIXED_360_DEG) else x
termination_by x.natAbs
decreasing_by
  simp only [FIXED_360_DEG] at *
  omega

/-- Second while-loop of heading_to_angle: add 360 degrees while negative. -/
def deg_wrap_up (x : Int) : Int :=
  if x < 0 then deg_wrap_up (x + FIXED_360_DEG) else x
termination_by (-x).toNat
decreasing_by
  simp only [FIXED_360_DEG] at *
  omega

/-- heading_to_angle from se3_math.c: add the 90-degree frame correction,
wrap into the basic revolution by the two while-loops, then scale by
2 to the 32 over 360 degrees with a 64-bit intermediate, and cast the
quotient to uint32. -/
def heading_to_angle (heading_deg : Int) : Nat :=
  let corrected_deg := heading_deg + FIXED_90_DEG
  let wrapped := deg_wrap_up (deg_wrap_down corrected_deg)
  (wrapped.toNat * 4294967296 / FIXED_360_DEG.toNat) % 4294967296

/-- Specification-level heading conversion, written from the spec's words:
add 90 degrees, wrap into the interval from 0 to 360 by a true modulus,
then scale by 2 to the 32 over 360 with a 64-bit intermediate. -/
def heading_to_angle_spec (heading_deg : Int) : Nat :=
  (((heading_deg + FIXED_90_DEG) % FIXED_360_DEG).toNat * 4294967296) /
    FIXED_360_DEG.toNat

/-- The first heading wrap loop keeps the residue modulo 360 degrees and
lands strictly below 360 degrees. -/
theorem deg_wrap_down_spec (x : Int) :
    deg_wrap_down x < FIXED_360_DEG ∧
      deg_wrap_down x % FIXED_360_DEG = x % FIXED_360_DEG := by
  induction x using deg_wrap_down.induct with
  | case1 x h ih =>
      rw [deg_wrap_down, if_pos h]
      refine ⟨ih.1, ?_⟩
      rw [ih.2]
      simp only [FIXED_360_DEG]
      omega
  | case2 x h =>
      rw [deg_wrap_down, if_neg h]
      exact ⟨by omega, rfl⟩

/-- The second heading wrap loop is the true modulus on inputs already
below 360 degrees. -/
theorem deg_wrap_up_spec (x : Int) (h : x < FIXED_360_DEG) :
    deg_wrap_up x = x % FIXED_360_DEG := by
  induction x using deg_wrap_up.induct with
  | case1 x hx ih =>
      rw [deg_wrap_up, if_pos hx]
      have hlt : x + FIXED_360_DEG < FIXED_360_DEG := by
        simp only [FIXED_360_DEG] at *
        omega
      rw [ih hlt]
      simp only [FIXED_360_DEG]
      omega
  | case2 x hx =>
      rw [deg_wrap_up, if_neg hx]
      simp only [FIXED_360_DEG] at *
      omega

/-- heading_to_angle agrees with the true-modulus formulation. -/
theorem heading_to_angle_eq_spec (h : Int) :
    heading_to_angle h = heading_to_angle_spec h := by
  unfold heading_to_angle heading_to_angle_spec
  dsimp only
  have hdown := deg_wrap_down_spec (h + FIXED_90_DEG)
  rw [deg_wrap_up_spec _ hdown.1, hdown.2]
  have hlt : ((h + FIXED_90_DEG) % FIXED_360_DEG).toNat < FIXED_360_DEG.toNat := by
    simp only [FIXED_90_DEG, FIXED_360_DEG]
    omega
  have hq : ((h + FIXED_90_DEG) % FIXED_360_DEG).toNat * 4294967296 /
      FIXED_360_DEG.toNat < 4294967296 := by
    refine Nat.div_lt_of_lt_mul ?_
    calc ((h + FIXED_90_DEG) % FIXED_360_DEG).toNat * 4294967296
        < FIXED_360_DEG.toNat * 4294967296 := by
          exact (Nat.mul_lt_mul_right (by norm_num)).mpr hlt
      _ = 4294967296 * FIXED_360_DEG.toNat := Nat.mul_comm _ _
  exact Nat.mod_eq_of_lt hq

/-- C9: heading_to_angle adds the 90-degree frame correction, wraps into
one revolution, and scales by 2 to the 32 over 360 with a 64-bit
intermediate; heading 0 yields the internal angle 0x40000000 (90 degrees),
and the conversion is periodic with period 360 degrees. -/
theorem heading_to_angle_correct (h : Int) :
    heading_to_angle h = heading_to_angle_spec h ∧
      heading_to_angle 0 = 1073741824 ∧
      heading_to_angle (h + FIXED_360_DEG) = heading_to_angle h := by
  refine ⟨heading_to_angle_eq_spec h, ?_, ?_⟩
  · rw [heading_to_angle_eq_spec 0]
    unfold heading_to_angle_spec
    norm_num [FIXED_90_DEG, FIXED_360_DEG]
    rfl
  · rw [heading_to_angle_eq_spec, heading_to_angle_eq_spec]
    unfold heading_to_angle_spec
    have : (h + FIXED_360_DEG + FIXED_90_DEG) % FIXED_360_DEG
        = (h + FIXED_90_DEG) % FIXED_360_DEG := by
      simp only [FIXED_90_DEG, FIXED_360_DEG]
      omega
    rw [this]

/-! ## Dateline detection (handoff.c) -/

/-- detect_dateline_cross from handoff.c: normalize both longitudes,
compute the (unused) normalized delta as the source does, then compare the
raw post-normalization difference against the 180-degree threshold. -/
def detect_dateline_cross (lon1 lon2 : Int) : Bool :=
  let l1 := normalize_lon lon1
  let l2 := normalize_lon lon2
  let _delta := normalize_lon (l2 - l1)
  let raw_delta := l2 - l1
  let threshold := FIXED_180_DEG
  decide (raw_delta > threshold) || decide (raw_delta < -threshold)

/-- C8: for longitudes already normalised into the band from -180 to 180
degrees, detect_dateline_cross holds exactly when the raw difference has
magnitude strictly above 180 degrees in fixed-point. -/
theorem detect_dateline_cross_correct (a b : Int)
    (ha1 : -FIXED_180_DEG ≤ a) (ha2 : a ≤ FIXED_180_DEG)
    (hb1 : -FIXED_180_DEG ≤ b) (hb2 : b ≤ FIXED_180_DEG) :
    detect_dateline_cross a b = true ↔ FIXED_180_DEG < |b - a| := by
  unfold detect_dateline_cross
  rw [normalize_lon_id a ha1 ha2, normalize_lon_id b hb1 hb2]
  simp only [Bool.or_eq_true, decide_eq_true_eq, lt_abs]
  omega

/-- Witness for C8: the spec's two pinned examples, 179 to -179 degrees
crosses and 100 to 110 degrees does not. -/
theorem detect_dateline_cross_witness :
    detect_dateline_cross 11730944 (-11730944) = true ∧
      detect_dateline_cross 6553600 7208960 = false := by
  constructor
  · exact (detect_dateline_cross_correct 11730944 (-11730944)
      (by decide) (by decide) (by decide) (by decide)).mpr (by decide)
  · have h := detect_dateline_cross_correct 6553600 7208960
      (by decide) (by decide) (by decide) (by decide)
    cases hb : detect_dateline_cross 6553600 7208960 with
    | false => rfl
    | true => exact absurd (h.mp hb) (by decide)

/-! ## T-BSP data model (t_bsp.h) -/

/-- MAX_POSES_PER_CELL from t_bsp.h. -/
def MAX_POSES_PER_CELL : Nat := 128

/-- MAX_CELLS from t_bsp.h. -/
def MAX_CELLS : Nat := 64

/-- CELL_SIZE_KM from t_bsp.h. -/
def CELL_SIZE_KM : Int := 10

/-- FIXED_DEG_TO_KM from t_bsp.h: the C expression casts the float32
product 111.32f * 65536 (exactly 7295467.0 in single precision) to int. -/
def FIXED_DEG_TO_KM : Int := 7295467

/-- se3_pose_t from se3_edge.h; the rotation array elements r0 to r8 and
the translation array elements t0 to t2 are individual fixed_t fields,
timestamp and mmsi are unsigned 32-bit words. -/
structure SE3Pose where
  r0 : Int
  r1 : Int
  r2 : Int
  r3 : Int
  r4 : Int
  r5 : Int
  r6 : Int
  r7 : Int
  r8 : Int
  t0 : Int
  t1 : Int
  t2 : Int
  timestamp : Nat
  mmsi : Nat
deriving DecidableEq

/-- The all-zero pose (what memset leaves in a freshly zeroed cell). -/
def zeroPose : SE3Pose := ⟨0, 0, 0, 0, 0, 0, 0, 0, 0, 0, 0, 0, 0, 0⟩

/-- t_bsp_cell_t from t_bsp.h: cell metadata plus the pose ring, the
latter modelled as a total function from array index to pose. -/
structure TBspCell where
  cell_id : Nat
  pose_count : Nat
  active : Bool
  poses : Nat → SE3Pose

/-- A zeroed cell, as t_bsp_init leaves every slot. -/
def zeroCell : TBspCell :=
  { cell_id := 0, pose_count := 0, active := false, poses := fun _ => zeroPose }

/-- t_bsp_t from t_bsp.h: the static cell pool, the active count and the
voyage-origin reference point. -/
structure TBsp where
  cells : List TBspCell
  active_count : Nat
  ref_lat : Int
  ref_lon : Int

/-- t_bsp_init from t_bsp.c: set the reference point (longitude
normalised) and zero every cell. -/
def t_bsp_init (lat0 lon0 : Int) : TBsp :=
  { cells := List.replicate MAX_CELLS zeroCell
    active_count := 0
    ref_lat := lat0
    ref_lon := normalize_lon lon0 }

/-! ## Cell-ID encoding (t_bsp.c) -/

/-- generate_cell_id from t_bsp.c: clamp both indices to the signed 8-bit
range, then pack the two low bytes (two's complement) into a uint16. -/
def generate_cell_id (lat_idx lon_idx : Int) : Nat :=
  let lat_c := if lat_idx > 127 then 127 else if lat_idx < -128 then -128 else lat_idx
  let lon_c := if lon_idx > 127 then 127 else if lon_idx < -128 then -128 else lon_idx
  (((lat_c % 256).toNat) <<< 8) ||| (lon_c % 256).toNat

/-- Sign extension of a byte, the effect of the C cast to int8_t. -/
def sign_extend_8 (n : Nat) : Int := if n % 256 < 128 then (n % 256 : Nat) else (n % 256 : Nat) - 256

/-- decode_cell_id from t_bsp.c: split the uint16 and sign-extend each byte. -/
def decode_cell_id (cell_id : Nat) : Int × Int :=
  (sign_extend_8 ((cell_id >>> 8) % 256), sign_extend_8 (cell_id % 256))

/-- t_bsp_latlon_to_cell from t_bsp.c: normalise the longitude, convert
the degree offsets from the reference point to kilometres, divide by the
cell size with the source's two rounding branches, and pack the indices. -/
def t_bsp_latlon_to_cell (bsp : TBsp) (lat lon : Int) : Nat :=
  let lon' := normalize_lon lon
  let dlat := lat - bsp.ref_lat
  let dlon := lon' - bsp.ref_lon
  let dlat_km := FixedMul dlat FIXED_DEG_TO_KM
  let dlon_km := FixedMul dlon FIXED_DEG_TO_KM
  let cell_size_fixed := INT_TO_FIXED CELL_SIZE_KM
  let lat_idx :=
    if dlat_km ≥ 0 then FIXED_TO_INT (FixedDiv dlat_km cell_size_fixed)
    else FIXED_TO_INT (FixedDiv (dlat_km - (cell_size_fixed - FRACUNIT)) cell_size_fixed)
  let lon_idx :=
    if dlon_km ≥ 0 then FIXED_TO_INT (FixedDiv dlon_km cell_size_fixed)
    else FIXED_TO_INT (FixedDiv (dlon_km - (cell_size_fixed - FRACUNIT)) cell_size_fixed)
  generate_cell_id lat_idx lon_idx

/-- t_bsp_get_cell_bounds from t_bsp.c: decode the cell id, recover the
degree offsets, add the reference and normalise the longitudes. -/
def t_bsp_get_cell_bounds (bsp : TBsp) (cell_id : Nat) : Int × Int × Int × Int :=
  let idx := decode_cell_id cell_id
  let cell_size_deg := FixedDiv (INT_TO_FIXED CELL_SIZE_KM) FIXED_DEG_TO_KM
  let lat_offset := FixedMul (INT_TO_FIXED idx.1) cell_size_deg
  let lon_offset := FixedMul (INT_TO_FIXED idx.2) cell_size_deg
  let lat_min := bsp.ref_lat + lat_offset
  let lat_max := lat_min + cell_size_deg
  let lon_min := normalize_lon (bsp.ref_lon + lon_offset)
  let lon_max := normalize_lon (lon_min + cell_size_deg)
  (lat_min, lat_max, lon_min, lon_max)

/-- C1: the rounding policy is broken for negative offsets.  At the
reference point (0, 0), the latitude -2943 (about -0.0449 degrees) has a
kilometre offset of magnitude below CELL_SIZE_KM in both axes, yet
t_bsp_latlon_to_cell maps it to grid index -2, hence cell ID 0xFE00
rather than the claimed cell ID 0: the negative branch computes neither a
floor nor a ceiling-toward-zero of the quotient. -/
theorem latlon_to_cell_zero_cell_bug :
    (FixedMul (-2943) FIXED_DEG_TO_KM).natAbs < (INT_TO_FIXED CELL_SIZE_KM).natAbs ∧
      (FixedMul 0 FIXED_DEG_TO_KM).natAbs < (INT_TO_FIXED CELL_SIZE_KM).natAbs ∧
      t_bsp_latlon_to_cell (t_bsp_init 0 0) (-2943) 0 = 65024 ∧
      (65024 : Nat) ≠ 0 := by
  have h0 : normalize_lon 0 = 0 := normalize_lon_id 0 (by decide) (by decide)
  refine ⟨by decide, by decide, ?_, by decide⟩
  unfold t_bsp_latlon_to_cell t_bsp_init
  dsimp only
  rw [h0]
  decide

/-- C3: the round-trip through t_bsp_latlon_to_cell and
t_bsp_get_cell_bounds does not contain the original point.  For the same
failing latitude -2943 at reference (0, 0) the unclamped grid indices are
(-2, 0), well inside the signed 8-bit range, yet the recovered latitude
interval is -11774 to -5887, which excludes -2943. -/
theorem cell_bounds_round_trip_bug :
    FIXED_TO_INT (FixedDiv (FixedMul (-2943) FIXED_DEG_TO_KM -
        (INT_TO_FIXED CELL_SIZE_KM - FRACUNIT)) (INT_TO_FIXED CELL_SIZE_KM)) = -2 ∧
      t_bsp_latlon_to_cell (t_bsp_init 0 0) (-2943) 0 = 65024 ∧
      t_bsp_get_cell_bounds (t_bsp_init 0 0) 65024 = (-11774, -5887, 0, 5887) ∧
      ¬((-11774 : Int) ≤ -2943 ∧ (-2943 : Int) ≤ -5887) := by
  have h0 : normalize_lon 0 = 0 := normalize_lon_id 0 (by decide) (by decide)
  have h5887 : normalize_lon 5887 = 5887 := normalize_lon_id 5887 (by decide) (by decide)
  refine ⟨by decide, ?_, ?_, by decide⟩
  · unfold t_bsp_latlon_to_cell t_bsp_init
    dsimp only
    rw [h0]
    decide
  · unfold t_bsp_get_cell_bounds t_bsp_init
    dsimp only
    have hoff : (0 : Int) + FixedMul (INT_TO_FIXED (decode_cell_id 65024).2)
        (FixedDiv (INT_TO_FIXED CELL_SIZE_KM) FIXED_DEG_TO_KM) = 0 := by decide
    rw [h0, hoff, h0]
    have hmax : (0 : Int) + FixedDiv (INT_TO_FIXED CELL_SIZE_KM) FIXED_DEG_TO_KM
        = 5887 := by decide
    rw [hmax, h5887]
    decide

/-! ## T-BSP cell pool operations (t_bsp.c) -/

/-- Linear scan for the first cell satisfying a predicate; the for-loops
in t_bsp.c walk the cell array in index order. -/
def findCellIdx (p : TBspCell → Bool) : List TBspCell → Option Nat
  | [] => none
  | c :: cs => if p c then some 0 else (findCellIdx p cs).map (· + 1)

/-- Overflow check and append of t_bsp_insert_pose: reset pose_count to 0
when the cell is full, then write the pose at pose_count and increment. -/
def appendPose (c : TBspCell) (pose : SE3Pose) : TBspCell :=
  let pc := if c.pose_count ≥ MAX_POSES_PER_CELL then 0 else c.pose_count
  { c with pose_count := pc + 1, poses := Function.update c.poses pc pose }

/-- t_bsp_insert_pose from t_bsp.c: pass 1 looks for an active cell with
the matching id, pass 2 allocates the first inactive slot (incrementing
the uint16 active_count), and with no slot the call fails with the root
untouched; the target cell then receives the pose through the ring
overflow policy. -/
def t_bsp_insert_pose (bsp : TBsp) (cell_id : Nat) (pose : SE3Pose) :
    Bool × TBsp :=
  match findCellIdx (fun c => c.active && c.cell_id == cell_id) bsp.cells with
  | some i =>
      (true, { bsp with
        cells := bsp.cells.set i (appendPose (bsp.cells.getD i zeroCell) pose) })
  | none =>
      match findCellIdx (fun c => !c.active) bsp.cells with
      | some j =>
          let c0 := bsp.cells.getD j zeroCell
          let c1 := { c0 with cell_id := cell_id, pose_count := 0, active := true }
          (true, { bsp with
            cells := bsp.cells.set j (appendPose c1 pose),
            active_count := (bsp.active_count + 1) % 65536 })
      | none => (false, bsp)

/-- t_bsp_get_cell from t_bsp.c: first active cell with the matching id. -/
def t_bsp_get_cell (bsp : TBsp) (cell_id : Nat) : Option TBspCell :=
  match findCellIdx (fun c => c.active && c.cell_id == cell_id) bsp.cells with
  | some i => some (bsp.cells.getD i zeroCell)
  | none => none

/-- t_bsp_reset_cell from t_bsp.c: deactivate the first active matching
cell, zero its pose_count and decrement the uint16 active_count; a miss
is a no-op. -/
def t_bsp_reset_cell (bsp : TBsp) (cell_id : Nat) : TBsp :=
  match findCellIdx (fun c => c.active && c.cell_id == cell_id) bsp.cells with
  | some i =>
      let c := bsp.cells.getD i zeroCell
      { bsp with
        cells := bsp.cells.set i { c with active := false, pose_count := 0 },
        active_count := (bsp.active_count + 65535) % 65536 }
  | none => bsp

/-- t_bsp_cell_near_full from t_bsp.c.  The float threshold argument only
ever feeds the uint16 conversion threshold_count = (uint16)(threshold *
MAX_POSES_PER_CELL), so the function is modelled over that resulting
count; the null pointer is the none case.  The null/inactive test runs
before the threshold is consulted. -/
def t_bsp_cell_near_full (cell : Option TBspCell) (threshold_count : Nat) : Bool :=
  match cell with
  | none => false
  | some c =>
      if !c.active then false
      else decide (c.pose_count ≥ threshold_count)

/-- C10: for every threshold, a null or inactive cell is never reported
near full, whatever its pose_count; only an active cell can be reported
near full. -/
theorem cell_near_full_requires_active (cell : Option TBspCell) (tc : Nat) :
    (cell = none → t_bsp_cell_near_full cell tc = false) ∧
      (∀ c, cell = some c → c.active = false →
        t_bsp_cell_near_full cell tc = false) ∧
      (t_bsp_cell_near_full cell tc = true →
        ∃ c, cell = some c ∧ c.active = true) := by
  refine ⟨?_, ?_, ?_⟩
  · rintro rfl
    rfl
  · rintro c rfl hc
    simp [t_bsp_cell_near_full, hc]
  · intro h
    match cell with
    | none => exact absurd h (by simp [t_bsp_cell_near_full])
    | some c =>
        refine ⟨c, rfl, ?_⟩
        by_contra hc
        simp only [Bool.not_eq_true] at hc
        simp [t_bsp_cell_near_full, hc] at h

/-- Witness for C10 at the null cell and a concrete inactive cell. -/
theorem cell_near_full_requires_active_witness :
    t_bsp_cell_near_full none 0 = false ∧
      t_bsp_cell_near_full (some { zeroCell with pose_count := 999 }) 0 = false := by
  constructor
  · exact (cell_near_full_requires_active none 0).1 rfl
  · exact (cell_near_full_requires_active
      (some { zeroCell with pose_count := 999 }) 0).2.1 _ rfl rfl

/-- C5: t_bsp_insert_pose returns false exactly when there is neither an
active matching cell nor an inactive slot, and in that case the whole
root - cells, active_count and reference point - is returned unchanged. -/
theorem insert_pose_capacity_exhausted (bsp : TBsp) (cell_id : Nat)
    (pose : SE3Pose) :
    ((t_bsp_insert_pose bsp cell_id pose).1 = false ↔
      findCellIdx (fun c => c.active && c.cell_id == cell_id) bsp.cells = none ∧
        findCellIdx (fun c => !c.active) bsp.cells = none) ∧
      ((t_bsp_insert_pose bsp cell_id pose).1 = false →
        (t_bsp_insert_pose bsp cell_id pose).2 = bsp) := by
  unfold t_bsp_insert_pose
  rcases h1 : findCellIdx (fun c => c.active && c.cell_id == cell_id) bsp.cells with _ | i
  · rcases h2 : findCellIdx (fun c => !c.active) bsp.cells with _ | j
    · simp
    · simp
  · simp

/-- A root whose 64 cells are all active with pairwise distinct ids. -/
def fullBsp : TBsp :=
  { cells := (List.range 64).map (fun i =>
      { cell_id := i, pose_count := 0, active := true, poses := fun _ => zeroPose })
    active_count := 64
    ref_lat := 0
    ref_lon := 0 }

/-- Witness for C5: inserting an unknown cell id into the full root fails
and returns the root unchanged. -/
theorem insert_pose_capacity_exhausted_witness :
    (t_bsp_insert_pose fullBsp 999 zeroPose).1 = false ∧
      (t_bsp_insert_pose fullBsp 999 zeroPose).2 = fullBsp := by
  have hf : (t_bsp_insert_pose fullBsp 999 zeroPose).1 = false := by decide
  exact ⟨hf, (insert_pose_capacity_exhausted fullBsp 999 zeroPose).2 hf⟩

/-! ## Ring-overflow behaviour of insertion (claim C4) -/

/-- Root state with exactly one allocated cell in slot 0, as reached by
inserting repeatedly into a fresh root with a single cell id. -/
def singleCellState (lat0 lon0 : Int) (cid n : Nat) (f : Nat → SE3Pose) : TBsp :=
  { cells := { cell_id := cid, pose_count := n, active := true, poses := f }
      :: List.replicate (MAX_CELLS - 1) zeroCell
    active_count := 1
    ref_lat := lat0
    ref_lon := normalize_lon lon0 }

/-- Scanning an all-zero pool for a predicate false on the zero cell
finds nothing. -/
theorem findCellIdx_replicate_none (p : TBspCell → Bool) (n : Nat)
    (hz : p zeroCell = false) :
    findCellIdx p (List.replicate n zeroCell) = none := by
  induction n with
  | zero => rfl
  | succ k ih => rw [List.replicate_succ, findCellIdx, if_neg (by simp [hz]), ih]; rfl

/-- The first insertion into a fresh root allocates slot 0. -/
theorem insert_into_init (lat0 lon0 : Int) (cid : Nat) (p : SE3Pose) :
    t_bsp_insert_pose (t_bsp_init lat0 lon0) cid p =
      (true, singleCellState lat0 lon0 cid 1
        (Function.update (fun _ => zeroPose) 0 p)) := by
  rfl

/-- An insertion with the same id into the one-cell state targets slot 0
and applies the ring-overflow policy. -/
theorem insert_into_single (lat0 lon0 : Int) (cid n : Nat) (f : Nat → SE3Pose)
    (p : SE3Pose) :
    t_bsp_insert_pose (singleCellState lat0 lon0 cid n f) cid p =
      (true, singleCellState lat0 lon0 cid
        ((if n ≥ MAX_POSES_PER_CELL then 0 else n) + 1)
        (Function.update f (if n ≥ MAX_POSES_PER_CELL then 0 else n) p)) := by
  unfold t_bsp_insert_pose singleCellState appendPose
  dsimp only
  rw [findCellIdx, if_pos (by simp)]
  simp only [List.set_cons_zero, List.getD_cons_zero]

/-- Folding a pose list into the root with a fixed target cell id. -/
def insertSeq (bsp : TBsp) (cell_id : Nat) (ps : List SE3Pose) : TBsp :=
  ps.foldl (fun s p => (t_bsp_insert_pose s cell_id p).2) bsp

/-- Characterisation of up to 128 insertions into a fresh root: slot 0
holds all poses in order and none has been discarded. -/
theorem insertSeq_le_capacity (lat0 lon0 : Int) (cid : Nat) (ps : List SE3Pose)
    (hne : ps ≠ []) (hlen : ps.length ≤ 128) :
    ∃ f, insertSeq (t_bsp_init lat0 lon0) cid ps =
        singleCellState lat0 lon0 cid ps.length f ∧
      ∀ k, k < ps.length → f k = ps.getD k zeroPose := by
  induction ps using List.reverseRecOn with
  | nil => exact absurd rfl hne
  | append_singleton qs p ih =>
      rcases List.eq_nil_or_concat qs with hq | _
      · subst hq
        refine ⟨Function.update (fun _ => zeroPose) 0 p, ?_, ?_⟩
        · unfold insertSeq
          simp only [List.nil_append, List.foldl_cons, List.foldl_nil]
          rw [insert_into_init]
          rfl
        · intro k hk
          simp only [List.nil_append, List.length_cons, List.length_nil] at hk
          have hk0 : k = 0 := by omega
          subst hk0
          rfl
      · have hqs_ne : qs ≠ [] := by
          rintro rfl
          simp at *
        have hqs_len : qs.length ≤ 128 := by
          simp at hlen
          omega
        obtain ⟨f, hf, hfk⟩ := ih hqs_ne hqs_len
        have hlt : qs.length < 128 := by
          simp at hlen
          omega
        refine ⟨Function.update f qs.length p, ?_, ?_⟩
        · unfold insertSeq at hf ⊢
          rw [List.foldl_append, hf, List.foldl_cons, List.foldl_nil,
            insert_into_single]
          rw [if_neg (by simp only [MAX_POSES_PER_CELL]; omega)]
          simp
        · intro k hk
          simp only [List.length_append, List.length_cons, List.length_nil] at hk
          rcases Nat.lt_or_ge k qs.length with hk2 | hk2
          · rw [Function.update_noteq (by omega), hfk k hk2,
              List.getD_append _ _ _ _ hk2]
          · have hkeq : k = qs.length := by omega
            subst hkeq
            rw [Function.update_same, List.getD_append_right _ _ _ _ (Nat.le_refl _)]
            simp

/-- Looking up the single allocated cell returns it. -/
theorem get_cell_single (lat0 lon0 : Int) (cid n : Nat) (f : Nat → SE3Pose) :
    t_bsp_get_cell (singleCellState lat0 lon0 cid n f) cid =
      some { cell_id := cid, pose_count := n, active := true, poses := f } := by
  unfold t_bsp_get_cell singleCellState
  dsimp only
  rw [findCellIdx, if_pos (by simp)]
  rfl

/-- C4: at capacity the insertion resets pose_count to 0 and then appends,
so 129 insertions into one cell leave pose_count 1 with active_count
unchanged at 1, while up to 128 insertions keep every inserted pose in
order with pose_count equal to the number inserted. -/
theorem insert_pose_ring_overflow (lat0 lon0 : Int) (cid : Nat)
    (ps : List SE3Pose) :
    (ps.length = 129 →
      ∃ c, t_bsp_get_cell (insertSeq (t_bsp_init lat0 lon0) cid ps) cid
          = some c ∧
        c.pose_count = 1 ∧
        (insertSeq (t_bsp_init lat0 lon0) cid ps).active_count = 1) ∧
      (1 ≤ ps.length → ps.length ≤ 128 →
        ∃ c, t_bsp_get_cell (insertSeq (t_bsp_init lat0 lon0) cid ps) cid
            = some c ∧
          c.pose_count = ps.length ∧
          (insertSeq (t_bsp_init lat0 lon0) cid ps).active_count = 1 ∧
          ∀ k, k < ps.length → c.poses k = ps.getD k zeroPose) := by
  constructor
  · intro h129
    induction ps using List.reverseRecOn with
    | nil => simp at h129
    | append_singleton qs p _ =>
        have hqs_len : qs.length = 128 := by
          simp at h129
          omega
        have hqs_ne : qs ≠ [] := by
          rintro rfl
          simp at hqs_len
        obtain ⟨f, hf, _⟩ := insertSeq_le_capacity lat0 lon0 cid qs hqs_ne
          (by omega)
        unfold insertSeq at hf ⊢
        rw [List.foldl_append, hf, List.foldl_cons, List.foldl_nil, hqs_len,
          insert_into_single,
          if_pos (by simp only [MAX_POSES_PER_CELL]; omega)]
        exact ⟨_, get_cell_single lat0 lon0 cid 1 _, rfl, rfl⟩
  · intro h1 h2
    obtain ⟨f, hf, hfk⟩ := insertSeq_le_capacity lat0 lon0 cid ps
      (by rintro rfl; simp at h1) h2
    rw [hf]
    exact ⟨_, get_cell_single lat0 lon0 cid ps.length f, rfl, rfl, hfk⟩

/-- Witness for C4: 129 insertions of the zero pose into cell 7 of a
fresh root leave pose_count 1 and active_count 1. -/
theorem insert_pose_ring_overflow_witness :
    ∃ c, t_bsp_get_cell
          (insertSeq (t_bsp_init 0 0) 7 (List.replicate 129 zeroPose)) 7
        = some c ∧
      c.pose_count = 1 ∧
      (insertSeq (t_bsp_init 0 0) 7 (List.replicate 129 zeroPose)).active_count
        = 1 :=
  (insert_pose_ring_overflow 0 0 7 (List.replicate 129 zeroPose)).1 (by simp)

/-! ## Active-count invariant (claim C6) -/

/-- A successful scan returns an in-range index whose cell satisfies the
predicate. -/
theorem findCellIdx_some (p : TBspCell → Bool) (l : List TBspCell) (i : Nat)
    (h : findCellIdx p l = some i) : ∃ hi : i < l.length, p l[i] = true := by
  induction l generalizing i with
  | nil => exact absurd h (by simp [findCellIdx])
  | cons c cs ih =>
      rw [findCellIdx] at h
      by_cases hc : p c
      · rw [if_pos hc] at h
        obtain rfl : i = 0 := by simpa using h.symm
        exact ⟨by simp, hc⟩
      · rw [if_neg hc] at h
        rcases hfind : findCellIdx p cs with _ | i'
        · rw [hfind] at h
          simp at h
        · rw [hfind] at h
          obtain rfl : i = i' + 1 := by simpa using h.symm
          obtain ⟨hi', hp'⟩ := ih i' hfind
          exact ⟨by simpa using hi', by simpa using hp'⟩

/-- A failed scan means the predicate fails on every cell. -/
theorem findCellIdx_none (p : TBspCell → Bool) (l : List TBspCell)
    (h : findCellIdx p l = none) :
    ∀ i, (hi : i < l.length) → p l[i] = false := by
  induction l with
  | nil => intro i hi; simp at hi
  | cons c cs ih =>
      rw [findCellIdx] at h
      by_cases hc : p c
      · rw [if_pos hc] at h
        simp at h
      · rw [if_neg hc] at h
        intro i hi
        match i with
        | 0 => simpa using hc
        | i' + 1 =>
            have hcs : findCellIdx p cs = none := by
              rcases hfind : findCellIdx p cs with _ | i'
              · rfl
              · rw [hfind] at h; simp at h
            simpa using ih hcs i' (by simpa using hi)

/-- Replacing one list element trades its predicate count for the new
element's. -/
theorem countP_set_add (p : TBspCell → Bool) (l : List TBspCell) (i : Nat)
    (x : TBspCell) (hi : i < l.length) :
    (l.set i x).countP p + (if p l[i] then 1 else 0) =
      l.countP p + (if p x then 1 else 0) := by
  induction l generalizing i with
  | nil => simp at hi
  | cons c cs ih =>
      match i with
      | 0 => simp [List.countP_cons]; omega
      | i' + 1 =>
          simp only [List.set_cons_succ, List.countP_cons, List.getElem_cons_succ]
          have := ih i' (by simpa using hi)
          omega

/-- The invariant of the claim: the pool has its static size, active_count
counts the active cells, and active cells have pairwise distinct ids. -/
def ActiveInv (bsp : TBsp) : Prop :=
  bsp.cells.length = MAX_CELLS ∧
    bsp.active_count = bsp.cells.countP (fun c => c.active) ∧
    ∀ i j, (hi : i < bsp.cells.length) → (hj : j < bsp.cells.length) →
      i ≠ j → (bsp.cells[i]).active = true → (bsp.cells[j]).active = true →
      (bsp.cells[i]).cell_id ≠ (bsp.cells[j]).cell_id

/-- The fresh root satisfies the invariant. -/
theorem activeInv_init (lat0 lon0 : Int) : ActiveInv (t_bsp_init lat0 lon0) := by
  refine ⟨by simp [t_bsp_init], ?_, ?_⟩
  · have : (List.replicate MAX_CELLS zeroCell).countP (fun c => c.active) = 0 := by
      refine List.countP_eq_zero.mpr ?_
      intro a ha
      rw [List.eq_of_mem_replicate ha]
      simp [zeroCell]
    simp [t_bsp_init, this]
  · intro i j hi hj hij hai
    exfalso
    revert hai
    simp only [t_bsp_init] at hi ⊢
    rw [List.getElem_replicate]
    simp [zeroCell]

/-- Ring append does not touch the activity flag. -/
theorem appendPose_active (c : TBspCell) (p : SE3Pose) :
    (appendPose c p).active = c.active := rfl

/-- Ring append does not touch the cell id. -/
theorem appendPose_cell_id (c : TBspCell) (p : SE3Pose) :
    (appendPose c p).cell_id = c.cell_id := rfl

/-- Insertion preserves the invariant. -/
theorem activeInv_insert (bsp : TBsp) (cid : Nat) (pose : SE3Pose)
    (h : ActiveInv bsp) : ActiveInv (t_bsp_insert_pose bsp cid pose).2 := by
  obtain ⟨hlen, hcount, hdist⟩ := h
  have hle : bsp.cells.countP (fun c => c.active) ≤ 64 := by
    have hcl := List.countP_le_length (fun c => c.active) (l := bsp.cells)
    rw [hlen] at hcl
    simpa [MAX_CELLS] using hcl
  unfold t_bsp_insert_pose
  rcases hm : findCellIdx (fun c => c.active && c.cell_id == cid) bsp.cells
    with _ | i
  · rcases hn : findCellIdx (fun c => !c.active) bsp.cells with _ | j
    · exact ⟨hlen, hcount, hdist⟩
    · obtain ⟨hj, hpj⟩ := findCellIdx_some _ _ _ hn
      have hjact : (bsp.cells[j]).active = false := by simpa using hpj
      have hmiss := findCellIdx_none _ _ hm
      dsimp only
      rw [List.getD_eq_getElem bsp.cells zeroCell hj]
      set x : TBspCell := appendPose
        { bsp.cells[j] with cell_id := cid, pose_count := 0, active := true }
        pose with hx
      have hxact : x.active = true := rfl
      have hxid : x.cell_id = cid := rfl
      have hset_ne : ∀ m, (hm2 : m < bsp.cells.length) →
          (hm3 : m < (bsp.cells.set j x).length) → j ≠ m →
          (bsp.cells.set j x)[m] = bsp.cells[m] := by
        intro m hm2 hm3 hne
        exact List.getElem_set_ne hne (by simpa using hm2)
      have hset_eq : ∀ hj2 : j < (bsp.cells.set j x).length,
          (bsp.cells.set j x)[j] = x := by
        intro hj2
        exact List.getElem_set_self (by simpa using hj2)
      refine ⟨by simpa using hlen, ?_, ?_⟩
      · show (bsp.active_count + 1) % 65536
          = (bsp.cells.set j x).countP (fun c => c.active)
        have hswap := countP_set_add (fun c => c.active) bsp.cells j x hj
        rw [hjact, hxact] at hswap
        simp only [Bool.false_eq_true, if_false, if_true] at hswap
        rw [hcount]
        omega
      · intro a b ha hb hab haa hba
        have ha2 : a < bsp.cells.length := by simpa using ha
        have hb2 : b < bsp.cells.length := by simpa using hb
        show ((bsp.cells.set j x)[a]).cell_id ≠ ((bsp.cells.set j x)[b]).cell_id
        have haa2 : ((bsp.cells.set j x)[a]).active = true := haa
        have hba2 : ((bsp.cells.set j x)[b]).active = true := hba
        by_cases haj : a = j
        · subst haj
          have hbj : a ≠ b := hab
          rw [hset_eq (by simpa using ha), hset_ne b hb2 (by simpa using hb) hbj] at *
          rw [hxid]
          have hbm := hmiss b hb2
          simp only [Bool.and_eq_false_iff] at hbm
          rcases hbm with hbm | hbm
          · rw [hba2] at hbm
            simp at hbm
          · intro hcontra
            rw [← hcontra] at hbm
            simp at hbm
        · by_cases hbj : b = j
          · subst hbj
            have hja : b ≠ a := fun hc => hab hc.symm
            rw [hset_ne a ha2 (by simpa using ha) hja, hset_eq (by simpa using hb)]
            rw [hxid]
            have ham := hmiss a ha2
            rw [hset_ne a ha2 (by simpa using ha) hja] at haa2
            simp only [Bool.and_eq_false_iff] at ham
            rcases ham with ham | ham
            · rw [haa2] at ham
              simp at ham
            · intro hcontra
              rw [hcontra] at ham
              simp at ham
          · rw [hset_ne a ha2 (by simpa using ha) (fun hc => haj hc.symm),
              hset_ne b hb2 (by simpa using hb) (fun hc => hbj hc.symm)]
            rw [hset_ne a ha2 (by simpa using ha) (fun hc => haj hc.symm)] at haa2
            rw [hset_ne b hb2 (by simpa using hb) (fun hc => hbj hc.symm)] at hba2
            exact hdist a b ha2 hb2 hab haa2 hba2
  · obtain ⟨hi, hpi⟩ := findCellIdx_some _ _ _ hm
    have hiact : (bsp.cells[i]).active = true := by
      simp only [Bool.and_eq_true] at hpi
      exact hpi.1
    dsimp only
    rw [List.getD_eq_getElem bsp.cells zeroCell hi]
    set x : TBspCell := appendPose bsp.cells[i] pose with hx
    have hxact : x.active = (bsp.cells[i]).active := rfl
    have hxid : x.cell_id = (bsp.cells[i]).cell_id := rfl
    have hset_ne : ∀ m, (hm2 : m < bsp.cells.length) →
        (hm3 : m < (bsp.cells.set i x).length) → i ≠ m →
        (bsp.cells.set i x)[m] = bsp.cells[m] := by
      intro m hm2 hm3 hne
      exact List.getElem_set_ne hne (by simpa using hm2)
    have hset_eq : ∀ hi2 : i < (bsp.cells.set i x).length,
        (bsp.cells.set i x)[i] = x := by
      intro hi2
      exact List.getElem_set_self (by simpa using hi2)
    refine ⟨by simpa using hlen, ?_, ?_⟩
    · show bsp.active_count = (bsp.cells.set i x).countP (fun c => c.active)
      have hswap := countP_set_add (fun c => c.active) bsp.cells i x hi
      rw [hxact, hiact] at hswap
      simp only [if_true] at hswap
      rw [hcount]
      omega
    · intro a b ha hb hab haa hba
      have ha2 : a < bsp.cells.length := by simpa using ha
      have hb2 : b < bsp.cells.length := by simpa using hb
      show ((bsp.cells.set i x)[a]).cell_id ≠ ((bsp.cells.set i x)[b]).cell_id
      have haa2 : ((bsp.cells.set i x)[a]).active = true := haa
      have hba2 : ((bsp.cells.set i x)[b]).active = true := hba
      by_cases hai : a = i
      · subst hai
        have hba3 : ((bsp.cells.set a x)[b]).active = true := hba2
        rw [hset_ne b hb2 (by simpa using hb) hab] at hba3
        rw [hset_eq (by simpa using ha), hset_ne b hb2 (by simpa using hb) hab, hxid]
        exact hdist a b ha2 hb2 hab hiact hba3
      · by_cases hbi : b = i
        · subst hbi
          have hja : b ≠ a := fun hc => hab hc.symm
          have haa3 : ((bsp.cells.set b x)[a]).active = true := haa2
          rw [hset_ne a ha2 (by simpa using ha) hja] at haa3
          rw [hset_ne a ha2 (by simpa using ha) hja, hset_eq (by simpa using hb), hxid]
          exact hdist a b ha2 hb2 hab haa3 hiact
        · have haa3 : ((bsp.cells.set i x)[a]).active = true := haa2
          have hba3 : ((bsp.cells.set i x)[b]).active = true := hba2
          rw [hset_ne a ha2 (by simpa using ha) (fun hc => hai hc.symm)] at haa3
          rw [hset_ne b hb2 (by simpa using hb) (fun hc => hbi hc.symm)] at hba3
          rw [hset_ne a ha2 (by simpa using ha) (fun hc => hai hc.symm),
            hset_ne b hb2 (by simpa using hb) (fun hc => hbi hc.symm)]
          exact hdist a b ha2 hb2 hab haa3 hba3

/-- Cell reset preserves the invariant. -/
theorem activeInv_reset (bsp : TBsp) (cid : Nat) (h : ActiveInv bsp) :
    ActiveInv (t_bsp_reset_cell bsp cid) := by
  obtain ⟨hlen, hcount, hdist⟩ := h
  have hle : bsp.cells.countP (fun c => c.active) ≤ 64 := by
    have hcl := List.countP_le_length (fun c => c.active) (l := bsp.cells)
    rw [hlen] at hcl
    simpa [MAX_CELLS] using hcl
  unfold t_bsp_reset_cell
  rcases hm : findCellIdx (fun c => c.active && c.cell_id == cid) bsp.cells
    with _ | i
  · exact ⟨hlen, hcount, hdist⟩
  · obtain ⟨hi, hpi⟩ := findCellIdx_some _ _ _ hm
    have hiact : (bsp.cells[i]).active = true := by
      simp only [Bool.and_eq_true] at hpi
      exact hpi.1
    dsimp only
    rw [List.getD_eq_getElem bsp.cells zeroCell hi]
    set x : TBspCell :=
      { bsp.cells[i] with active := false, pose_count := 0 } with hx
    have hxact : x.active = false := rfl
    have hxid : x.cell_id = (bsp.cells[i]).cell_id := rfl
    have hset_ne : ∀ m, (hm2 : m < bsp.cells.length) →
        (hm3 : m < (bsp.cells.set i x).length) → i ≠ m →
        (bsp.cells.set i x)[m] = bsp.cells[m] := by
      intro m hm2 hm3 hne
      exact List.getElem_set_ne hne (by simpa using hm2)
    have hset_eq : ∀ hi2 : i < (bsp.cells.set i x).length,
        (bsp.cells.set i x)[i] = x := by
      intro hi2
      exact List.getElem_set_self (by simpa using hi2)
    refine ⟨by simpa using hlen, ?_, ?_⟩
    · show (bsp.active_count + 65535) % 65536
        = (bsp.cells.set i x).countP (fun c => c.active)
      have hswap := countP_set_add (fun c => c.active) bsp.cells i x hi
      rw [hiact, hxact] at hswap
      simp only [Bool.false_eq_true, if_false, if_true] at hswap
      rw [hcount]
      omega
    · intro a b ha hb hab haa hba
      have ha2 : a < bsp.cells.length := by simpa using ha
      have hb2 : b < bsp.cells.length := by simpa using hb
      show ((bsp.cells.set i x)[a]).cell_id ≠ ((bsp.cells.set i x)[b]).cell_id
      have haa2 : ((bsp.cells.set i x)[a]).active = true := haa
      have hba2 : ((bsp.cells.set i x)[b]).active = true := hba
      by_cases hai : a = i
      · subst hai
        rw [hset_eq (by simpa using ha), hxact] at haa2
        simp at haa2
      · by_cases hbi : b = i
        · subst hbi
          rw [hset_eq (by simpa using hb), hxact] at hba2
          simp at hba2
        · rw [hset_ne a ha2 (by simpa using ha) (fun hc => hai hc.symm)] at haa2
          rw [hset_ne b hb2 (by simpa using hb) (fun hc => hbi hc.symm)] at hba2
          rw [hset_ne a ha2 (by simpa using ha) (fun hc => hai hc.symm),
            hset_ne b hb2 (by simpa using hb) (fun hc => hbi hc.symm)]
          exact hdist a b ha2 hb2 hab haa2 hba2

/-- An operation on the T-BSP root: a pose insertion or a cell reset. -/
inductive TBspOp where
  | insert : Nat → SE3Pose → TBspOp
  | reset : Nat → TBspOp

/-- Apply one operation to the root. -/
def applyOp (bsp : TBsp) : TBspOp → TBsp
  | TBspOp.insert cid pose => (t_bsp_insert_pose bsp cid pose).2
  | TBspOp.reset cid => t_bsp_reset_cell bsp cid

/-- Apply a sequence of operations to the root. -/
def applyOps (bsp : TBsp) (ops : List TBspOp) : TBsp := ops.foldl applyOp bsp

/-- The invariant survives any operation sequence. -/
theorem activeInv_applyOps (bsp : TBsp) (ops : List TBspOp) (h : ActiveInv bsp) :
    ActiveInv (applyOps bsp ops) := by
  induction ops generalizing bsp with
  | nil => exact h
  | cons op ops ih =>
      rw [applyOps, List.foldl_cons]
      refine ih (applyOp bsp op) ?_
      cases op with
      | insert cid pose => exact activeInv_insert bsp cid pose h
      | reset cid => exact activeInv_reset bsp cid h

/-- C6: after t_bsp_init and any sequence of insertions and resets,
active_count equals the number of cells whose active flag is true, and no
two active cells share a cell id. -/
theorem active_count_invariant (lat0 lon0 : Int) (ops : List TBspOp) :
    (applyOps (t_bsp_init lat0 lon0) ops).active_count =
        (applyOps (t_bsp_init lat0 lon0) ops).cells.countP (fun c => c.active) ∧
      ∀ i j, (hi : i < (applyOps (t_bsp_init lat0 lon0) ops).cells.length) →
        (hj : j < (applyOps (t_bsp_init lat0 lon0) ops).cells.length) →
        i ≠ j →
        ((applyOps (t_bsp_init lat0 lon0) ops).cells[i]).active = true →
        ((applyOps (t_bsp_init lat0 lon0) ops).cells[j]).active = true →
        ((applyOps (t_bsp_init lat0 lon0) ops).cells[i]).cell_id ≠
          ((applyOps (t_bsp_init lat0 lon0) ops).cells[j]).cell_id := by
  obtain ⟨_, h2, h3⟩ := activeInv_applyOps _ ops (activeInv_init lat0 lon0)
  exact ⟨h2, h3⟩

/-- Witness for C6 after one concrete insertion. -/
theorem active_count_invariant_witness :
    (applyOps (t_bsp_init 0 0) [TBspOp.insert 5 zeroPose]).active_count =
      (applyOps (t_bsp_init 0 0)
        [TBspOp.insert 5 zeroPose]).cells.countP (fun c => c.active) :=
  (active_count_invariant 0 0 [TBspOp.insert 5 zeroPose]).1

/-! ## Handoff packet (se3_edge.h, handoff.c) -/

/-- handoff_packet_t from se3_edge.h: byte-packed 100-byte record.  The
three explicit padding bytes are part of the struct and travel through
the byte-for-byte serialisation; the 32 signature bytes are modelled as a
function from index to byte. -/
structure HandoffPacket where
  mmsi : Nat
  last_pose : SE3Pose
  old_cell_id : Nat
  new_cell_id : Nat
  flags : Nat
  pad0 : Nat
  pad1 : Nat
  pad2 : Nat
  signature : Fin 32 → Nat

/-- validate_handoff_packet from handoff.c: reject a zero MMSI, reject a
non-transition (equal cell ids), and reject a pose older than 86400
seconds when the external clock is strictly ahead of it.  The C null
check has no counterpart since packets are passed by value here. -/
def validate_handoff_packet (pkt : HandoffPacket) (current_time : Nat) : Bool :=
  if pkt.mmsi = 0 then false
  else if pkt.old_cell_id = pkt.new_cell_id then false
  else if current_time > pkt.last_pose.timestamp then
    (if current_time - pkt.last_pose.timestamp > 86400 then false else true)
  else true

/-- C7: a packet is accepted exactly when the MMSI is non-zero, the cell
ids differ, and, whenever the clock is at or after the pose timestamp,
the age is at most 86400 seconds; a pose timestamp ahead of the clock
never causes rejection. -/
theorem validate_handoff_packet_correct (pkt : HandoffPacket)
    (current_time : Nat) :
    validate_handoff_packet pkt current_time = true ↔
      (pkt.mmsi ≠ 0 ∧ pkt.old_cell_id ≠ pkt.new_cell_id ∧
        (pkt.last_pose.timestamp ≤ current_time →
          current_time - pkt.last_pose.timestamp ≤ 86400)) := by
  unfold validate_handoff_packet
  split_ifs with h1 h2 h3 h4
  · simp [h1]
  · simp [h2]
  · simp only [Bool.false_eq_true, false_iff]
    rintro ⟨-, -, hage⟩
    exact absurd (hage (by omega)) (by omega)
  · simp only [true_iff]
    exact ⟨h1, h2, fun _ => by omega⟩
  · simp only [true_iff]
    exact ⟨h1, h2, fun hts => by omega⟩

/-- Witness for C7: a concrete fresh packet validates, a zero-MMSI packet
is rejected. -/
theorem validate_handoff_packet_witness :
    validate_handoff_packet
      { mmsi := 367123456
        last_pose := { zeroPose with timestamp := 1000 }
        old_cell_id := 256
        new_cell_id := 257
        flags := 1
        pad0 := 0, pad1 := 0, pad2 := 0
        signature := fun _ => 0 } 1000 = true :=
  (validate_handoff_packet_correct _ 1000).mpr (by refine ⟨by decide, by decide, ?_⟩; intro h; omega)

/-! ## Handoff serialisation (handoff.c) -/

/-- Little-endian bytes of a 16-bit field. -/
def le16Bytes (n : Nat) : List Nat := [n % 256, n / 256 % 256]

/-- Little-endian bytes of a 32-bit field. -/
def le32Bytes (n : Nat) : List Nat :=
  [n % 256, n / 256 % 256, n / 65536 % 256, n / 16777216 % 256]

/-- Little-endian two's-complement bytes of a signed 32-bit field. -/
def int32Bytes (x : Int) : List Nat := le32Bytes ((x % 4294967296).toNat)

/-- Byte image of a packed se3_pose_t: rotation, translation, timestamp,
MMSI, in declaration order. -/
def poseBytes (p : SE3Pose) : List Nat :=
  int32Bytes p.r0 ++ int32Bytes p.r1 ++ int32Bytes p.r2 ++
    int32Bytes p.r3 ++ int32Bytes p.r4 ++ int32Bytes p.r5 ++
    int32Bytes p.r6 ++ int32Bytes p.r7 ++ int32Bytes p.r8 ++
    int32Bytes p.t0 ++ int32Bytes p.t1 ++ int32Bytes p.t2 ++
    le32Bytes p.timestamp ++ le32Bytes p.mmsi

/-- serialize_handoff from handoff.c: a memcpy of the packed 100-byte
record, i.e. every field emitted at its packed offset in little-endian
byte order (the ESP32 target is little-endian). -/
def serialize_handoff (pkt : HandoffPacket) : List Nat :=
  le32Bytes pkt.mmsi ++ poseBytes pkt.last_pose ++
    le16Bytes pkt.old_cell_id ++ le16Bytes pkt.new_cell_id ++
    [pkt.flags] ++ [pkt.pad0, pkt.pad1, pkt.pad2] ++
    List.ofFn (fun i : Fin 32 => pkt.signature i)

/-- Pop one byte off the buffer (a missing byte reads as zero). -/
def readByte : List Nat → Nat × List Nat
  | [] => (0, [])
  | b :: rest => (b, rest)

/-- Read a little-endian 16-bit word. -/
def read2 (l : List Nat) : Nat × List Nat :=
  let r0 := readByte l
  let r1 := readByte r0.2
  (r0.1 + 256 * r1.1, r1.2)

/-- Read a little-endian 32-bit word. -/
def read4 (l : List Nat) : Nat × List Nat :=
  let r0 := readByte l
  let r1 := readByte r0.2
  let r2 := readByte r1.2
  let r3 := readByte r2.2
  (r0.1 + 256 * r1.1 + 65536 * r2.1 + 16777216 * r3.1, r3.2)

/-- Reinterpret a 32-bit word as a signed value (two's complement). -/
def word_to_int32 (w : Nat) : Int :=
  if w < 2147483648 then (w : Int) else (w : Int) - 4294967296

/-- Read a signed little-endian 32-bit word. -/
def readI4 (l : List Nat) : Int × List Nat :=
  let r := read4 l
  (word_to_int32 r.1, r.2)

/-- Modelled from the spec: the body of deserialize_handoff is missing
from src/embedded/handoff.c (the file splices the definition of
handoff_should_trigger into its opening null check, losing the rest);
per spec section 4.6 deserialisation is the byte-for-byte inverse of the
memcpy serialisation with a single validity check, MMSI non-zero. -/
def deserialize_handoff (l : List Nat) : Option HandoffPacket :=
  let m := read4 l
  let a0 := readI4 m.2
  let a1 := readI4 a0.2
  let a2 := readI4 a1.2
  let a3 := readI4 a2.2
  let a4 := readI4 a3.2
  let a5 := readI4 a4.2
  let a6 := readI4 a5.2
  let a7 := readI4 a6.2
  let a8 := readI4 a7.2
  let b0 := readI4 a8.2
  let b1 := readI4 b0.2
  let b2 := readI4 b1.2
  let ts := read4 b2.2
  let pm := read4 ts.2
  let oc := read2 pm.2
  let nc := read2 oc.2
  let fl := readByte nc.2
  let p0 := readByte fl.2
  let p1 := readByte p0.2
  let p2 := readByte p1.2
  let pkt : HandoffPacket :=
    { mmsi := m.1
      last_pose :=
        { r0 := a0.1, r1 := a1.1, r2 := a2.1, r3 := a3.1, r4 := a4.1
          r5 := a5.1, r6 := a6.1, r7 := a7.1, r8 := a8.1
          t0 := b0.1, t1 := b1.1, t2 := b2.1
          timestamp := ts.1, mmsi := pm.1 }
      old_cell_id := oc.1
      new_cell_id := nc.1
      flags := fl.1
      pad0 := p0.1, pad1 := p1.1, pad2 := p2.1
      signature := fun i => p2.2.getD i.val 0 }
  if pkt.mmsi = 0 then none else some pkt

/-- Reading four bytes recovers a 32-bit field modulo 2^32. -/
theorem read4_le32 (n : Nat) (rest : List Nat) :
    read4 (le32Bytes n ++ rest) = (n % 4294967296, rest) := by
  simp only [le32Bytes, List.cons_append, List.nil_append, read4, readByte]
  refine Prod.ext ?_ rfl
  show n % 256 + 256 * (n / 256 % 256) + 65536 * (n / 65536 % 256) +
      16777216 * (n / 16777216 % 256) = n % 4294967296
  omega

/-- Reading two bytes recovers a 16-bit field modulo 2^16. -/
theorem read2_le16 (n : Nat) (rest : List Nat) :
    read2 (le16Bytes n ++ rest) = (n % 65536, rest) := by
  simp only [le16Bytes, List.cons_append, List.nil_append, read2, readByte]
  refine Prod.ext ?_ rfl
  show n % 256 + 256 * (n / 256 % 256) = n % 65536
  omega

/-- Reading a signed word recovers the two's-complement reinterpretation. -/
theorem readI4_int32Bytes (x : Int) (rest : List Nat) :
    readI4 (int32Bytes x ++ rest) =
      (word_to_int32 ((x % 4294967296).toNat), rest) := by
  unfold readI4 int32Bytes
  rw [read4_le32]
  refine Prod.ext ?_ rfl
  show word_to_int32 ((x % 4294967296).toNat % 4294967296)
    = word_to_int32 ((x % 4294967296).toNat)
  congr 1
  omega

/-- Two's-complement reinterpretation inverts encoding on int32 values. -/
theorem word_to_int32_round (x : Int) (h1 : -2147483648 ≤ x)
    (h2 : x < 2147483648) : word_to_int32 ((x % 4294967296).toNat) = x := by
  unfold word_to_int32
  split_ifs with h
  · omega
  · omega

/-- Popping the head byte. -/
theorem readByte_cons (b : Nat) (rest : List Nat) :
    readByte (b :: rest) = (b, rest) := rfl

/-- All numeric fields of a packet lie in their C storage ranges. -/
def packet_in_range (pkt : HandoffPacket) : Prop :=
  pkt.mmsi < 4294967296 ∧
    (-2147483648 ≤ pkt.last_pose.r0 ∧ pkt.last_pose.r0 < 2147483648) ∧
    (-2147483648 ≤ pkt.last_pose.r1 ∧ pkt.last_pose.r1 < 2147483648) ∧
    (-2147483648 ≤ pkt.last_pose.r2 ∧ pkt.last_pose.r2 < 2147483648) ∧
    (-2147483648 ≤ pkt.last_pose.r3 ∧ pkt.last_pose.r3 < 2147483648) ∧
    (-2147483648 ≤ pkt.last_pose.r4 ∧ pkt.last_pose.r4 < 2147483648) ∧
    (-2147483648 ≤ pkt.last_pose.r5 ∧ pkt.last_pose.r5 < 2147483648) ∧
    (-2147483648 ≤ pkt.last_pose.r6 ∧ pkt.last_pose.r6 < 2147483648) ∧
    (-2147483648 ≤ pkt.last_pose.r7 ∧ pkt.last_pose.r7 < 2147483648) ∧
    (-2147483648 ≤ pkt.last_pose.r8 ∧ pkt.last_pose.r8 < 2147483648) ∧
    (-2147483648 ≤ pkt.last_pose.t0 ∧ pkt.last_pose.t0 < 2147483648) ∧
    (-2147483648 ≤ pkt.last_pose.t1 ∧ pkt.last_pose.t1 < 2147483648) ∧
    (-2147483648 ≤ pkt.last_pose.t2 ∧ pkt.last_pose.t2 < 2147483648) ∧
    pkt.last_pose.timestamp < 4294967296 ∧ pkt.last_pose.mmsi < 4294967296 ∧
    pkt.old_cell_id < 65536 ∧ pkt.new_cell_id < 65536 ∧
    pkt.flags < 256 ∧ pkt.pad0 < 256 ∧ pkt.pad1 < 256 ∧ pkt.pad2 < 256

/-- C2: the serialised packet is exactly 100 bytes; deserialising it
recovers a packet identical to the original in every field other than the
signature; and deserialisation applies exactly one validity check,
failing on any buffer exactly when the decoded MMSI word is zero. -/
theorem handoff_serialize_round_trip (pkt : HandoffPacket)
    (hwf : packet_in_range pkt) :
    (serialize_handoff pkt).length = 100 ∧
      (pkt.mmsi ≠ 0 → ∃ q, deserialize_handoff (serialize_handoff pkt) = some q ∧
        q.mmsi = pkt.mmsi ∧ q.last_pose = pkt.last_pose ∧
        q.old_cell_id = pkt.old_cell_id ∧ q.new_cell_id = pkt.new_cell_id ∧
        q.flags = pkt.flags ∧
        q.pad0 = pkt.pad0 ∧ q.pad1 = pkt.pad1 ∧ q.pad2 = pkt.pad2) ∧
      (∀ l, deserialize_handoff l = none ↔ (read4 l).1 = 0) := by
  obtain ⟨hm, hr0, hr1, hr2, hr3, hr4, hr5, hr6, hr7, hr8, ht0, ht1, ht2,
    hts, hpm, hoc, hnc, hfl, hp0, hp1, hp2⟩ := hwf
  refine ⟨?_, ?_, ?_⟩
  · simp [serialize_handoff, poseBytes, le32Bytes, le16Bytes, int32Bytes]
  · intro hmz
    unfold serialize_handoff poseBytes deserialize_handoff
    simp only [List.append_assoc, List.cons_append, List.nil_append]
    simp only [read4_le32, readI4_int32Bytes, read2_le16, readByte_cons]
    rw [word_to_int32_round _ hr0.1 hr0.2, word_to_int32_round _ hr1.1 hr1.2,
      word_to_int32_round _ hr2.1 hr2.2, word_to_int32_round _ hr3.1 hr3.2,
      word_to_int32_round _ hr4.1 hr4.2, word_to_int32_round _ hr5.1 hr5.2,
      word_to_int32_round _ hr6.1 hr6.2, word_to_int32_round _ hr7.1 hr7.2,
      word_to_int32_round _ hr8.1 hr8.2, word_to_int32_round _ ht0.1 ht0.2,
      word_to_int32_round _ ht1.1 ht1.2, word_to_int32_round _ ht2.1 ht2.2]
    rw [Nat.mod_eq_of_lt hm, Nat.mod_eq_of_lt hts, Nat.mod_eq_of_lt hpm,
      Nat.mod_eq_of_lt hoc, Nat.mod_eq_of_lt hnc]
    rw [if_neg hmz]
    exact ⟨_, rfl, rfl, rfl, rfl, rfl, rfl, rfl, rfl, rfl⟩
  · intro l
    unfold deserialize_handoff
    dsimp only
    split_ifs with h
    · simp [h]
    · simp [h]

/-- The spec's example packet: MMSI 367123456, cells 0x0100 to 0x0101,
flags 0x01. -/
def examplePacket : HandoffPacket :=
  { mmsi := 367123456
    last_pose :=
      { r0 := 65536, r1 := 0, r2 := 0, r3 := 0, r4 := 65536, r5 := 0
        r6 := 0, r7 := 0, r8 := 65536, t0 := -5, t1 := 7, t2 := 0
        timestamp := 1700000000, mmsi := 367123456 }
    old_cell_id := 256
    new_cell_id := 257
    flags := 1
    pad0 := 0, pad1 := 0, pad2 := 0
    signature := fun _ => 0 }

/-- Witness for C2 on the spec's example packet. -/
theorem handoff_serialize_round_trip_witness :
    packet_in_range examplePacket ∧
      (serialize_handoff examplePacket).length = 100 ∧
      ∃ q, deserialize_handoff (serialize_handoff examplePacket) = some q ∧
        q.mmsi = examplePacket.mmsi := by
  have h : packet_in_range examplePacket := by
    unfold packet_in_range
    decide
  have hthm := handoff_serialize_round_trip examplePacket h
  obtain ⟨q, hq, hqm, -, -, -, -, -, -, -⟩ := hthm.2.1 (by decide)
  exact ⟨h, hthm.1, q, hq, hqm⟩
